import Mathlib

/-!
Verification of the openApiBuilder specification compiler (src/index.js).

The JavaScript source operates on in-memory JSON document trees.  We embed
those trees as the inductive type `Json` below.  The reference resolver in
the source works on the `JSON.stringify` serialization of the document with
`String.replaceAll`; since string values are quote-escaped in the
serialization, the pattern `"$ref":"<ptr>"` can only match at an actual
object member named `$ref` whose value is the string `<ptr>`, so the string
rewriting is modelled here as the equivalent tree rewriting (`substJson`).
Process-terminating error paths (`console.error` + `process.exit(1)`) and
thrown JavaScript runtime errors (`TypeError`, `SyntaxError`) are modelled
as `Except` error results, following spec §9 ("Fatal-exit calls → results").
-/

set_option maxHeartbeats 1000000

/-- A JSON document tree: the in-memory OpenAPI document shape the compiler
consumes.  Object members are kept as an ordered association list, matching
JavaScript property insertion order. -/
inductive Json where
  | str (s : String)
  | num (n : Int)
  | bool (b : Bool)
  | null
  | arr (elems : List Json)
  | obj (fields : List (String × Json))
deriving Repr

mutual

/-- Structural (deep) equality test on documents. -/
def Json.beq : Json → Json → Bool
  | .str a, .str b => a == b
  | .num a, .num b => a == b
  | .bool a, .bool b => a == b
  | .null, .null => true
  | .arr a, .arr b => Json.beqList a b
  | .obj a, .obj b => Json.beqFields a b
  | _, _ => false

/-- Deep equality on element lists. -/
def Json.beqList : List Json → List Json → Bool
  | [], [] => true
  | a :: as, b :: bs => Json.beq a b && Json.beqList as bs
  | _, _ => false

/-- Deep equality on member lists. -/
def Json.beqFields : List (String × Json) → List (String × Json) → Bool
  | [], [] => true
  | f :: as, g :: bs => f.1 == g.1 && Json.beq f.2 g.2 && Json.beqFields as bs
  | _, _ => false

end

/-- Member-wise induction principle for `Json` (the nested lists make the
auto-generated recursor inconvenient). -/
theorem Json.inductionOn (P : Json → Prop)
    (hstr : ∀ s, P (.str s)) (hnum : ∀ n, P (.num n))
    (hbool : ∀ b, P (.bool b)) (hnull : P .null)
    (harr : ∀ xs, (∀ x ∈ xs, P x) → P (.arr xs))
    (hobj : ∀ fs, (∀ f ∈ fs, P (Prod.snd f)) → P (.obj fs)) :
    ∀ v, P v
  | .str s => hstr s
  | .num n => hnum n
  | .bool b => hbool b
  | .null => hnull
  | .arr xs => harr xs (fun x hx =>
      Json.inductionOn P hstr hnum hbool hnull harr hobj x)
  | .obj fs => hobj fs (fun f hf =>
      Json.inductionOn P hstr hnum hbool hnull harr hobj f.2)
termination_by v => sizeOf v
decreasing_by
  · have := List.sizeOf_lt_of_mem hx
    simp only [Json.arr.sizeOf_spec]
    omega
  · have h1 := List.sizeOf_lt_of_mem hf
    have h2 : sizeOf f.2 < sizeOf f := by
      cases f with | mk a b => simp only [Prod.mk.sizeOf_spec]; omega
    simp only [Json.obj.sizeOf_spec]
    omega

theorem Json.beqList_iff (xs : List Json)
    (ih : ∀ x ∈ xs, ∀ b, (Json.beq x b = true) ↔ x = b) :
    ∀ ys, (Json.beqList xs ys = true) ↔ xs = ys := by
  induction xs with
  | nil => intro ys; cases ys <;> simp [Json.beqList]
  | cons x xs ihx =>
    intro ys
    cases ys with
    | nil => simp [Json.beqList]
    | cons y ys =>
      have hx := ih x (by simp)
      have hrest := ihx (fun z hz => ih z (by simp [hz])) ys
      simp [Json.beqList, Bool.and_eq_true, hx, hrest]

theorem Json.beqFields_iff (fs : List (String × Json))
    (ih : ∀ f ∈ fs, ∀ b, (Json.beq (Prod.snd f) b = true) ↔ Prod.snd f = b) :
    ∀ gs, (Json.beqFields fs gs = true) ↔ fs = gs := by
  induction fs with
  | nil => intro gs; cases gs <;> simp [Json.beqFields]
  | cons f fs ihf =>
    intro gs
    cases gs with
    | nil => simp [Json.beqFields]
    | cons g gs =>
      have hf := ih f (by simp)
      have hrest := ihf (fun z hz => ih z (by simp [hz])) gs
      cases f with | mk n v =>
      cases g with | mk m w =>
      simp [Json.beqFields, Bool.and_eq_true, beq_iff_eq, hf, hrest,
        List.cons.injEq, Prod.mk.injEq]

theorem Json.beq_iff : ∀ a b : Json, (Json.beq a b = true) ↔ a = b := by
  intro a
  induction a using Json.inductionOn with
  | hstr s => intro b; cases b <;> simp [Json.beq]
  | hnum n => intro b; cases b <;> simp [Json.beq]
  | hbool c => intro b; cases b <;> simp [Json.beq]
  | hnull => intro b; cases b <;> simp [Json.beq]
  | harr xs ih =>
    intro b
    cases b <;> simp only [Json.beq, Json.arr.injEq] <;>
      first
      | exact Json.beqList_iff xs ih _
      | simp
  | hobj fs ih =>
    intro b
    cases b <;> simp only [Json.beq, Json.obj.injEq] <;>
      first
      | exact Json.beqFields_iff fs ih _
      | simp

instance : DecidableEq Json := fun a b =>
  decidable_of_iff (Json.beq a b = true) (Json.beq_iff a b)

/-- First-match association lookup, the shallow model of JavaScript property
access `o[k]` on a plain object (post-`JSON.parse` objects have no duplicate
keys, so first match is the member). -/
def jsLookup (fields : List (String × Json)) (k : String) : Option Json :=
  fields.findSome? (fun f => if f.1 = k then some f.2 else none)

/-- Property access on an arbitrary value: only objects carry members here;
accessing a member of a primitive yields `undefined` (`none`). -/
def jsGet (v : Json) (k : String) : Option Json :=
  match v with
  | .obj fields => jsLookup fields k
  | _ => none

/-- Path lookup through nested objects. -/
def lookupPath (v : Json) : List String → Option Json
  | [] => some v
  | k :: ks =>
    match jsGet v k with
    | some w => lookupPath w ks
    | none => none

/-- JavaScript truthiness of a JSON value. -/
def jsTruthy : Json → Bool
  | .null => false
  | .bool b => b
  | .num n => n != 0
  | .str s => s != ""
  | .arr _ => true
  | .obj _ => true

/-- Truthiness of a possibly-absent (`undefined`) value. -/
def jsTruthyOpt : Option Json → Bool
  | none => false
  | some v => jsTruthy v

/-- Assignment `o[k] = v` on an object's member list: an existing key keeps
its position and gets the new value; a new key is appended, matching
JavaScript property insertion order. -/
def jsSet (fields : List (String × Json)) (k : String) (v : Json) :
    List (String × Json) :=
  if fields.any (fun f => f.1 = k) then
    fields.map (fun f => if f.1 = k then (f.1, v) else f)
  else
    fields ++ [(k, v)]

/-- Object spread `{...a, ...b}`: `b`'s members are assigned into `a`
left-to-right (later keys overwrite in place, new keys are appended). -/
def jsMergeFields (a b : List (String × Json)) : List (String × Json) :=
  b.foldl (fun acc f => jsSet acc f.1 f.2) a

/-- The member list produced by spreading a value into an object literal
(`{...v}`): objects contribute their members, arrays and strings contribute
index-keyed entries, primitives and `undefined`/`null` contribute nothing. -/
def spreadFields : Option Json → List (String × Json)
  | some (.obj fields) => fields
  | some (.arr xs) => (List.range xs.length).zip xs |>.map
      (fun p => (toString p.1, p.2))
  | some (.str s) => (List.range s.length).zip s.data |>.map
      (fun p => (toString p.1, .str (String.mk [p.2])))
  | _ => []

/-- JavaScript string coercion of a value used as a computed property key.
(Array join and object stringification are shallow here; every claim uses
string-valued keys, where the coercion is the identity.) -/
def jsKeyString : Json → String
  | .str s => s
  | .num n => toString n
  | .bool b => Bool.rec "false" "true" b
  | .null => "null"
  | .arr _ => ""
  | .obj _ => "[object Object]"

/-- Coerce a possibly-absent value to a property key, as JavaScript does
when a computed key is `undefined`. -/
def jsKeyOf : Option Json → String
  | none => "undefined"
  | some v => jsKeyString v

/-- The `Object.keys`/index iteration of a value as (key, value) entries:
objects yield their members, arrays and strings index-keyed entries,
numbers and booleans nothing; `null`/`undefined` make `Object.keys` throw
(`none`). -/
def jsOwnEntries : Json → Option (List (String × Json))
  | .null => none
  | .obj fs => some fs
  | .arr xs => some ((List.range xs.length).zip xs |>.map
      (fun p => (toString p.1, p.2)))
  | .str s => some ((List.range s.length).zip s.data |>.map
      (fun p => (toString p.1, .str (String.mk [p.2]))))
  | .num _ => some []
  | .bool _ => some []

/-- The compiler's failure modes.  `console.error` + `process.exit(1)` sites
in the source are modelled as returned errors (spec §9, "Fatal-exit calls →
results"); JavaScript runtime exceptions are `jsTypeError` (property access
or method call on `undefined`/`null`/non-functions) and `jsSyntaxError`
(`JSON.parse` of corrupted text).  `malformedSchema` and `cyclicReference`
are the spec's §7 taxonomy entries `MalformedSchemaError` and
`CyclicReferenceError`; no code path of the source produces them — they
exist so claims about them can be stated. -/
inductive CompileError where
  | unresolvedReferences (refs : List String)
  | missingHandler (operationId : String)
  | malformedSchema (location : String)
  | cyclicReference (location : String)
  | jsTypeError
  | jsSyntaxError
deriving DecidableEq, Repr

/-- Classifier used to state claims about the spec's `MalformedSchemaError`. -/
def isMalformedSchemaError : CompileError → Bool
  | .malformedSchema _ => true
  | _ => false

/-- The internal pointer text for component `key` of group `groupKey`
(source line 23: `#/components/${componentGroupKey}` plus `/${componentKey}`). -/
def refPtr (groupKey componentKey : String) : String :=
  "#/components/" ++ groupKey ++ "/" ++ componentKey

/-- ASCII-lowercase a member key (the `i` flag of the scan's regex;
`String.toLower` itself does not reduce in the kernel, so the character
list is mapped instead). -/
def lowerKey (n : String) : String :=
  String.mk (n.data.map Char.toLower)

mutual

/-- src/index.js lines 6–13, `getRefsInsideSpec`: the source scans the
`JSON.stringify` serialization with `/"\$ref":[ ]?"[^"]+"/gi`.  In the
serialization, quotes inside string values are escaped, so a match can only
occur at an object member whose key is `$ref` up to ASCII case (the `i`
flag) and whose value is a nonempty string (`[^"]+` needs at least one
character; `stringify` never emits the optional space).  This is that scan
on the tree, returning the pointer text of each match in serialization
order. -/
def getRefsInsideSpec : Json → List String
  | .arr xs => refsInElems xs
  | .obj fs => refsInMembers fs
  | _ => []

/-- Reference scan over array elements. -/
def refsInElems : List Json → List String
  | [] => []
  | x :: xs => getRefsInsideSpec x ++ refsInElems xs

/-- Reference scan over object members. -/
def refsInMembers : List (String × Json) → List String
  | [] => []
  | f :: fs =>
    (match f with
     | (n, .str s) => if lowerKey n = "$ref" ∧ s ≠ "" then [s] else []
     | _ => []) ++ getRefsInsideSpec f.2 ++ refsInMembers fs

end

mutual

/-- One `replaceAll` pass of source line 29: every occurrence of the exact
serialized text `"$ref":"<ptr>"` is replaced by the component's serialized
content with its outer braces stripped.  On the tree this replaces each
object member `("$ref", str ptr)` by the content's members, spliced in
place; the inserted content is not rescanned (`replaceAll` does not revisit
replacement text). -/
def substJson (ptr : String) (content : List (String × Json)) : Json → Json
  | .arr xs => .arr (substElems ptr content xs)
  | .obj fs => .obj (substMembers ptr content fs)
  | v => v

/-- Substitution over array elements. -/
def substElems (ptr : String) (content : List (String × Json)) :
    List Json → List Json
  | [] => []
  | x :: xs => substJson ptr content x :: substElems ptr content xs

/-- Substitution over object members. -/
def substMembers (ptr : String) (content : List (String × Json)) :
    List (String × Json) → List (String × Json)
  | [] => []
  | f :: fs =>
    if f.1 = "$ref" ∧ f.2 = .str ptr then
      content ++ substMembers ptr content fs
    else
      (f.1, substJson ptr content f.2) :: substMembers ptr content fs

end

/-- One substitution step (source lines 28–29) for component
`componentKey` of group `groupKey`: read the component's *current* content
from the document and splice it over every reference to it. -/
def resolveComponentStep (groupKey : String) (specs : Json)
    (componentKey : String) : Except CompileError Json :=
  match lookupPath specs ["components", groupKey, componentKey] with
  | some (.obj contentFields) =>
      pure (substJson (refPtr groupKey componentKey) contentFields specs)
  | _ => throw CompileError.jsSyntaxError

/-- One group pass (source lines 22–32): capture the group's component keys
from the current document, then substitute each component in turn. -/
def resolveGroupStep (specs : Json) (groupKey : String) :
    Except CompileError Json := do
  let componentKeyArray ←
    match lookupPath specs ["components", groupKey] with
    | some (.obj comps) => pure (comps.map Prod.fst)
    | some (.num _) | some (.bool _) => pure ([] : List String)
    | _ => throw CompileError.jsTypeError
  componentKeyArray.foldlM (resolveComponentStep groupKey) specs

/-- src/index.js lines 20–41, `resolveInternalReferences`.  The deep copy of
line 21 is the identity on values.  Line 22 iterates the component group
keys captured before any substitution; line 24 re-reads each group's
component keys from the current document; line 28 reads the component's
current content and line 29 substitutes every reference to it document-wide.
Lines 34–38: any reference remaining afterwards is reported
(`console.error` + `process.exit(1)`, modelled as `unresolvedReferences`).
A non-object component would serialize to text that the brace-stripping of
line 28 corrupts, so the reparse of line 29 throws (`jsSyntaxError`).
String- or array-valued `components` (whose `Object.keys` are indices) are
not modelled. -/
def resolveInternalReferences (openApiSpec : Json) :
    Except CompileError Json := do
  let groupKeys ←
    match jsGet openApiSpec "components" with
    | some (.obj groups) => pure (groups.map Prod.fst)
    | some (.num _) | some (.bool _) => pure ([] : List String)
    | _ => throw .jsTypeError
  let specs ← groupKeys.foldlM resolveGroupStep openApiSpec
  let remainingRefsList := getRefsInsideSpec specs
  if remainingRefsList.isEmpty then
    pure specs
  else
    throw (.unresolvedReferences remainingRefsList)

/-- src/index.js lines 48–50, `transformPath`: brace-delimited path
variables become `:`-prefixed ones by deleting every `}` and turning every
`{` into `:`. -/
def transformPath (path : String) : String :=
  (path.replace "\x7d" "").replace "\x7b" ":"

/-- src/index.js lines 57–59, `createCamelCaseFromStr`: lower-case the first
character, keep the rest. -/
def createCamelCaseFromStr (str : String) : String :=
  match str.data with
  | [] => ""
  | c :: cs => String.mk (c.toLower :: cs)

/-- src/index.js lines 66–70, `parseParameterKey`: transport-location
translation `path → params`, `query → querystring`, all else unchanged. -/
def parseParameterKey (paramKey : String) : String :=
  if paramKey = "path" then "params"
  else if paramKey = "query" then "querystring"
  else paramKey

/-- The grouping key of one parameter: `parseParameterKey(param.in)`.  A
non-string `in` fails both comparisons and is then coerced to a string when
used as the accumulator's property key. -/
def paramLocKey (param : Json) : String :=
  match jsGet param "in" with
  | some (.str s) => parseParameterKey s
  | v => jsKeyOf v

/-- The property-key coercion of `param.name`. -/
def paramName (param : Json) : String :=
  jsKeyOf (jsGet param "name")

/-- src/index.js lines 277–284, `wrapEmptyObjects`: wrap a properties
object into `{type: 'object', properties: {...properties}}`. -/
def wrapEmptyObjects (properties : Json) : Json :=
  .obj [("type", .str "object"), ("properties", .obj (spreadFields (some properties)))]

/-- One step of the `reduce` of src/index.js lines 81–96: group the
parameter under its location key, merging `{[param.name]: {...param.schema}}`
over whatever that location already holds (the stored values are always
objects, so the `if (!acc[key]) acc[key] = {}` default is the `[]` branch). -/
def paramFold (acc : List (String × Json)) (param : Json) :
    List (String × Json) :=
  let key := paramLocKey param
  let paramTransformed : List (String × Json) :=
    [(paramName param, .obj (spreadFields (jsGet param "schema")))]
  let prev : List (String × Json) :=
    match jsLookup acc key with
    | some (.obj fs) => fs
    | _ => []
  jsSet acc key (.obj (jsMergeFields prev paramTransformed))

/-- src/index.js lines 77–101, `parseParameters`, on a present parameter
array (the `if (!parameterArray) return {}` guard covers the absent case,
which callers already default with `|| []`).  The reduce groups parameters
by location, then every location's object is wrapped by
`wrapEmptyObjects`. -/
def parseParameters (parameterArray : List Json) : Json :=
  let outputParameters := parameterArray.foldl paramFold []
  .obj (outputParameters.map (fun f => (f.1, wrapEmptyObjects f.2)))

/-- `!schemaProperties[k].<flag>`: member access on `null` throws; on other
primitives it autoboxes and yields `undefined` (falsy); on objects it is the
member's truthiness. -/
def propFlagTruthy (v : Json) (flag : String) : Except CompileError Bool :=
  match v with
  | .null => .error .jsTypeError
  | .obj fs => .ok (jsTruthyOpt (jsLookup fs flag))
  | _ => .ok false

/-- Monadic filter in source order (the `Array.filter` callback runs
left-to-right and the first thrown error aborts). -/
def exceptFilter (p : α → Except CompileError Bool) :
    List α → Except CompileError (List α)
  | [] => .ok []
  | a :: as => do
    let keep ← p a
    let rest ← exceptFilter p as
    pure (if keep then a :: rest else rest)

/-- Source line 118: `Object.keys(JSON.parse(JSON.stringify(schemaProperties)))`.
`stringify(undefined)` is `undefined`, which `JSON.parse` cannot parse
(`jsSyntaxError`); `Object.keys(null)` throws; numbers and booleans have no
own keys.  Index-keyed values (strings, arrays) take a degenerate path no
claim exercises and are not modelled. -/
def schemaPropsFields : Option Json → Except CompileError (List (String × Json))
  | none => .error .jsSyntaxError
  | some .null => .error .jsTypeError
  | some (.obj fs) => .ok fs
  | some (.num _) => .ok []
  | some (.bool _) => .ok []
  | some (.str _) => .error .jsTypeError
  | some (.arr _) => .error .jsTypeError

/-- Source lines 118–119 / 168–169: the property keys kept after dropping
those whose `<flag>` member is truthy. -/
def keptKeys (flag : String) (propFields : List (String × Json)) :
    Except CompileError (List String) :=
  exceptFilter
    (fun k => do
      let b ← propFlagTruthy ((jsLookup propFields k).getD .null) flag
      pure (!b))
    (propFields.map Prod.fst)

/-- Source lines 120–123 / 170–173: rebuild the filtered properties object
by spreading the kept members in order. -/
def keptProps (kept : List String) (propFields : List (String × Json)) :
    List (String × Json) :=
  kept.foldl (fun acc k => jsSet acc k ((jsLookup propFields k).getD .null)) []

/-- `required.filter((k) => filteredPropertiesArray.includes(k))`:
`includes` compares with `===`, so only string entries can match. -/
def requiredKeep (kept : List String) (x : Json) : Bool :=
  match x with
  | .str s => kept.contains s
  | _ => false

/-- Source line 124 (the unguarded `filter` call of
`filterReadOnlyProperties`): only an array value has `.filter`; on
`undefined`, `null` or any other value the call throws. -/
def requiredFilterStrict (kept : List String) (required : Option Json) :
    Except CompileError Json :=
  match required with
  | some (.arr xs) => .ok (.arr (xs.filter (requiredKeep kept)))
  | _ => .error .jsTypeError

/-- Locate the properties/required pair the filters operate on: the top
level normally, `items.properties`/`items.required` for an array-typed
schema (source lines 112–117 / 162–167).  Reading `.properties` of an
absent or null `items` throws; a primitive `items` yields `undefined` for
both. -/
def filterSource (fs : List (String × Json)) :
    Except CompileError (Option Json × Option Json) :=
  if jsLookup fs "type" = some (.str "array") then
    match jsLookup fs "items" with
    | none => .error .jsTypeError
    | some .null => .error .jsTypeError
    | some (.obj its) => .ok (jsLookup its "properties", jsLookup its "required")
    | some _ => .ok (none, none)
  else
    .ok (jsLookup fs "properties", jsLookup fs "required")

/-- Write the filtered properties/required back (source lines 125–134 /
177–188): spread-copy the schema, then assign `properties` and (when given)
`required` — into `items` for an array-typed schema, at the top level
otherwise.  Assignment replaces an existing key in place and appends a new
one. -/
def filterRebuild (fs : List (String × Json)) (props : Json)
    (required : Option Json) : Except CompileError Json :=
  if jsLookup fs "type" = some (.str "array") then
    match jsLookup fs "items" with
    | some (.obj its) =>
      let its1 := jsSet its "properties" props
      let its2 := match required with
        | some r => jsSet its1 "required" r
        | none => its1
      .ok (.obj (jsSet fs "items" (.obj its2)))
    | _ => .error .jsTypeError
  else
    let fs1 := jsSet fs "properties" props
    let fs2 := match required with
      | some r => jsSet fs1 "required" r
      | none => fs1
    .ok (.obj fs2)

/-- src/index.js lines 108–136, `filterReadOnlyProperties`.  An empty
schema object is returned as `{}` (line 109).  `Object.keys` of a number or
boolean is empty, so those also return `{}`; of `undefined`/`null` it
throws.  A non-empty string or array schema reaches the properties lookup
with `undefined` and dies at line 118.  Note the `required` filter of line
124 is unguarded: an absent `required` list throws. -/
def filterReadOnlyProperties (schema : Option Json) :
    Except CompileError Json := do
  match schema with
  | none => throw .jsTypeError
  | some .null => throw .jsTypeError
  | some (.num _) => pure (.obj [])
  | some (.bool _) => pure (.obj [])
  | some (.str s) => if s = "" then pure (.obj []) else throw .jsSyntaxError
  | some (.arr xs) => if xs = [] then pure (.obj []) else throw .jsSyntaxError
  | some (.obj fs) =>
    if fs = [] then pure (.obj [])
    else do
      let (props, required) ← filterSource fs
      let propFields ← schemaPropsFields props
      let kept ← keptKeys "readOnly" propFields
      let filteredRequired ← requiredFilterStrict kept required
      filterRebuild fs (.obj (keptProps kept propFields)) (some filteredRequired)

/-- src/index.js lines 158–190, `filterWriteOnlyProperties`.  Same shape as
`filterReadOnlyProperties` but dropping `writeOnly`-flagged properties, and
with the `required` handling guarded by truthiness (lines 174–176,
180–182, 185–187): a falsy `required` is left untouched instead of
throwing. -/
def filterWriteOnlyProperties (schema : Option Json) :
    Except CompileError Json := do
  match schema with
  | none => throw .jsTypeError
  | some .null => throw .jsTypeError
  | some (.num _) => pure (.obj [])
  | some (.bool _) => pure (.obj [])
  | some (.str s) => if s = "" then pure (.obj []) else throw .jsSyntaxError
  | some (.arr xs) => if xs = [] then pure (.obj []) else throw .jsSyntaxError
  | some (.obj fs) =>
    if fs = [] then pure (.obj [])
    else do
      let (props, required) ← filterSource fs
      let propFields ← schemaPropsFields props
      let kept ← keptKeys "writeOnly" propFields
      let filteredRequired ←
        if jsTruthyOpt required then
          match required with
          | some (.arr xs) => pure (some (Json.arr (xs.filter (requiredKeep kept))))
          | _ => throw CompileError.jsTypeError
        else
          pure (none : Option Json)
      filterRebuild fs (.obj (keptProps kept propFields)) filteredRequired

/-- src/index.js lines 144–151, `parseRequestBody`: when the request body
declares JSON content, its schema is read-filtered and wrapped as the
`body` member; otherwise nothing is contributed. -/
def parseRequestBody (requestBody : Option Json) :
    Except CompileError (List (String × Json)) := do
  let content : Option Json :=
    match requestBody with
    | none => none
    | some .null => none
    | some v => jsGet v "content"
  if jsTruthyOpt content then
    let cjson : Option Json :=
      match content with
      | some v => jsGet v "application/json"
      | none => none
    if jsTruthyOpt cjson then
      let schema : Option Json :=
        match cjson with
        | some v => jsGet v "schema"
        | none => none
      let filtered ← filterReadOnlyProperties schema
      pure [("body", filtered)]
    else
      pure []
  else
    pure []

/-- src/index.js lines 198–208, `parseResponses`: each response entry with
JSON content contributes its write-filtered schema (`.schema || {}`) under
the same status key; the collection, when non-empty, is wrapped as the
`response` member.  `Object.keys(undefined/null)` throws. -/
def parseResponses (responses : Option Json) :
    Except CompileError (List (String × Json)) := do
  let entries ←
    match responses with
    | none => throw CompileError.jsTypeError
    | some v =>
      match jsOwnEntries v with
      | none => throw CompileError.jsTypeError
      | some es => pure es
  let collected ← entries.foldlM (fun acc entry => do
      match entry.2 with
      | .null => throw CompileError.jsTypeError
      | tor =>
        let content := jsGet tor "content"
        if jsTruthyOpt content then
          let cjson : Option Json :=
            match content with
            | some v => jsGet v "application/json"
            | none => none
          if jsTruthyOpt cjson then
            let schemaRaw : Option Json :=
              match cjson with
              | some v => jsGet v "schema"
              | none => none
            let schemaVal : Option Json :=
              if jsTruthyOpt schemaRaw then schemaRaw else some (.obj [])
            let filtered ← filterWriteOnlyProperties schemaVal
            pure (jsSet acc entry.1 filtered)
          else
            pure acc
        else
          pure acc)
    ([] : List (String × Json))
  if collected.length > 0 then
    pure [("response", Json.obj collected)]
  else
    pure []

/-- A handler registry entry: a callable capability (`fn`, identified by a
number) or any non-callable value.  `typeof h === 'function'` holds exactly
for `fn`. -/
inductive RegVal where
  | fn (id : Nat)
  | val (v : Json)
deriving DecidableEq, Repr

/-- The handler registry: camelCased operation name to entry. -/
abbrev Registry := List (String × RegVal)

/-- Registry property access. -/
def regLookup (handlers : Registry) (k : String) : Option RegVal :=
  handlers.findSome? (fun f => if f.1 = k then some f.2 else none)

/-- `handlers[key]` exists and is callable
(`handlers[operationId] && typeof handlers[operationId] === 'function'`). -/
def regFindFn (handlers : Registry) (k : String) : Option RegVal :=
  match regLookup handlers k with
  | some (.fn i) => some (.fn i)
  | _ => none

/-- A compiled route before the URL is attached (the value built at source
lines 235–243). -/
structure ProtoRoute where
  method : String
  schema : Json
  handler : RegVal
deriving DecidableEq, Repr

/-- A compiled route descriptor (`{...routeSpec, url}`, source line 263). -/
structure Route where
  method : String
  schema : Json
  handler : RegVal
  url : String
deriving DecidableEq, Repr

/-- The recognized HTTP verbs (source line 221). -/
def methodsArray : List String :=
  ["get", "put", "post", "delete", "options", "head", "patch", "trace"]

/-- The body of the `map` callback of src/index.js lines 224–244, for one
recognized verb `m` of the path item `fields`.  (`globalParameters`, hoisted
to line 220 in the source, is recomputed here from the same unchanged
`fields` — the value is identical.) -/
def parseOneMethod (fields : List (String × Json)) (handlers : Registry)
    (m : String) : Except CompileError ProtoRoute := do
  let globalParameters : Json :=
    match jsLookup fields "parameters" with
    | some v => if jsTruthy v then v else .arr []
    | none => .arr []
  let op := (jsLookup fields m).getD .null
  let operationId ←
    match op with
    | .null => throw CompileError.jsTypeError
    | _ =>
      match jsGet op "operationId" with
      | some (.str s) => pure (createCamelCaseFromStr s)
      | _ => throw CompileError.jsTypeError
  let handler ←
    match regFindFn handlers operationId with
    | some h => pure h
    | none => throw (CompileError.missingHandler operationId)
  let localParameters ←
    match jsGet op "parameters" with
    | some v =>
      if jsTruthy v then
        match v with
        | .arr xs => pure xs
        | _ => throw CompileError.jsTypeError
      else
        pure ([] : List Json)
    | none => pure ([] : List Json)
  let globalList : List Json :=
    match globalParameters with
    | .arr xs => xs
    | v => [v]
  let params := parseParameters (localParameters ++ globalList)
  let paramsFields : List (String × Json) :=
    match params with
    | .obj pfs => pfs
    | _ => []
  let body ← parseRequestBody (jsGet op "requestBody")
  let responses ← parseResponses (jsGet op "responses")
  let schemaFields := jsMergeFields (jsMergeFields paramsFields body) responses
  pure (ProtoRoute.mk m.toUpper (Json.obj schemaFields) handler)

/-- src/index.js lines 218–245, `parseMethods`: for each member key that is
a recognized verb, derive the handler key from the operation's
`operationId` via `createCamelCaseFromStr`, fail with `missingHandler`
(`console.error` + `process.exit(1)`) when the registry has no callable
under it, and otherwise emit a proto-route whose schema merges the parsed
parameters (operation parameters concatenated before the path-item-level
ones), request body and responses, and whose method is the verb
upper-cased.  `process.exit` aborts everything already built, which the
`Except`-valued `mapM` models. -/
def parseMethods (openAPIMethodSpecList : Json) (handlers : Registry) :
    Except CompileError (List ProtoRoute) := do
  match openAPIMethodSpecList with
  | .obj fields =>
    ((fields.map Prod.fst).filter (fun m => methodsArray.contains m)).mapM
      (parseOneMethod fields handlers)
  | _ => throw CompileError.jsTypeError

/-- src/index.js lines 253–270, `routesFromOpenApiSpecs` (the default
export and sole public entry point).  Line 256 assigns
`openAPiRawSpecs.components = openAPiRawSpecs.components || {}` — a
mutation of the caller's document, which this model returns as the second
component of the result (the document's state after the call).  The rest of
the pipeline operates on the deep copy made inside
`resolveInternalReferences` and never touches the input again. -/
def routesFromOpenApiSpecs (openAPiRawSpecs : Json) (handlers : Registry) :
    Except CompileError (List Route) × Json :=
  match openAPiRawSpecs with
  | .obj fields =>
    let fields2 :=
      if jsTruthyOpt (jsLookup fields "components") then fields
      else jsSet fields "components" (.obj [])
    let doc := Json.obj fields2
    let result : Except CompileError (List Route) := do
      let specs ← resolveInternalReferences doc
      let pathsFields ←
        match jsGet specs "paths" with
        | some (.obj pf) => pure pf
        | _ => throw CompileError.jsTypeError
      let routeLists ← pathsFields.mapM (fun pf => do
          let url := transformPath pf.1
          let protos ← parseMethods pf.2 handlers
          pure (protos.map (fun r => Route.mk r.method r.schema r.handler url)))
      pure routeLists.flatten
    (result, doc)
  | v => (.error .jsTypeError, v)

/-! Specification-side definitions the claim statements compare the code
against. -/

/-- Spec §4.3's per-location merge: fold the parameters left-to-right into
one object per location; a repeated name overwrites the earlier schema in
place (last write wins). -/
def locMerge (params : List Json) (l : String) : List (String × Json) :=
  params.foldl
    (fun acc p =>
      if paramLocKey p = l then
        jsSet acc (paramName p) (.obj (spreadFields (jsGet p "schema")))
      else acc)
    []

/-- The schema contributed by the last parameter of location `l` named
`nm`, the value a last-write-wins merge must expose. -/
def lastParamSchema (params : List Json) (l nm : String) : Option Json :=
  ((params.filter (fun p => paramLocKey p = l && paramName p = nm)).getLast?).map
    (fun p => Json.obj (spreadFields (jsGet p "schema")))

/-- The pure value of the filters' kept-property computation when no
property value is `null` (the only throwing case): keys whose `<flag>`
member is not truthy. -/
def keptKeysPure (flag : String) (propFields : List (String × Json)) :
    List String :=
  (propFields.map Prod.fst).filter
    (fun k =>
      !(match (jsLookup propFields k).getD .null with
        | .obj fs => jsTruthyOpt (jsLookup fs flag)
        | _ => false))

mutual

/-- Every member whose key matches the final scan's case-insensitive `$ref`
pattern is keyed exactly `$ref` — so the scan and the (case-sensitive)
substitution agree on what a reference site is. -/
def caseExact : Json → Bool
  | .arr xs => caseExactElems xs
  | .obj fs => caseExactMembers fs
  | _ => true

/-- `caseExact` over array elements. -/
def caseExactElems : List Json → Bool
  | [] => true
  | x :: xs => caseExact x && caseExactElems xs

/-- `caseExact` over object members. -/
def caseExactMembers : List (String × Json) → Bool
  | [] => true
  | f :: fs =>
    (lowerKey f.1 != "$ref" || f.1 == "$ref") && caseExact f.2
      && caseExactMembers fs

end

/-- Resolve a pointer against a fixed component environment: the content
member list of the (first) component whose pointer text is `p`, when that
content is an object. -/
def lookupComp (gs : List (String × Json)) (p : String) :
    Option (List (String × Json)) :=
  gs.findSome? (fun g =>
    match g.2 with
    | .obj comps => comps.findSome? (fun c =>
        if refPtr g.1 c.1 = p then
          match c.2 with
          | .obj cf => some cf
          | _ => none
        else none)
    | _ => none)

mutual

/-- The specification-side resolver (spec §4.1): replace every reference
site, anywhere in the tree, by the *fully resolved* content of the
component it points to — resolution inside the inlined content continues
recursively, so a reference to a reference is resolved transitively, and
every site pointing at the same component receives the same (deep-equal)
value.  `fuel` bounds the reference-chain depth; on an acyclic component
graph with all ranks below the fuel it is never exhausted. -/
def fullResolve (gs : List (String × Json)) : Nat → Json → Json
  | fuel, .arr xs => .arr (fullResolveElems gs fuel xs)
  | fuel, .obj fs => .obj (fullResolveMembers gs fuel fs)
  | _, v => v
termination_by fuel v => (fuel, sizeOf v)
decreasing_by
  all_goals simp_wf
  all_goals
    first
    | exact Prod.Lex.left _ _ (by omega)
    | exact Prod.Lex.right _ (by omega)
    | exact Prod.Lex.right _ (by
        cases f with | mk a b => simp only [Prod.mk.sizeOf_spec]; omega)

/-- `fullResolve` over array elements. -/
def fullResolveElems (gs : List (String × Json)) :
    Nat → List Json → List Json
  | _, [] => []
  | fuel, x :: xs => fullResolve gs fuel x :: fullResolveElems gs fuel xs
termination_by fuel xs => (fuel, sizeOf xs)
decreasing_by
  all_goals simp_wf
  all_goals
    first
    | exact Prod.Lex.left _ _ (by omega)
    | exact Prod.Lex.right _ (by omega)
    | exact Prod.Lex.right _ (by
        cases f with | mk a b => simp only [Prod.mk.sizeOf_spec]; omega)

/-- `fullResolve` over object members: a `$ref`-keyed member whose string
pointer resolves in the environment is spliced (object-splice semantics)
into the fully resolved content; all other members are kept, resolved
recursively. -/
def fullResolveMembers (gs : List (String × Json)) :
    Nat → List (String × Json) → List (String × Json)
  | _, [] => []
  | fuel, f :: fs =>
    if f.1 = "$ref" then
      match f.2 with
      | .str p =>
        match lookupComp gs p with
        | some cf =>
          match fuel with
          | fuel' + 1 =>
              fullResolveMembers gs fuel' cf
                ++ fullResolveMembers gs (fuel' + 1) fs
          | 0 => f :: fullResolveMembers gs 0 fs
        | none => f :: fullResolveMembers gs fuel fs
      | _ => (f.1, fullResolve gs fuel f.2) :: fullResolveMembers gs fuel fs
    else (f.1, fullResolve gs fuel f.2) :: fullResolveMembers gs fuel fs
termination_by fuel fs => (fuel, sizeOf fs)
decreasing_by
  all_goals simp_wf
  all_goals
    first
    | exact Prod.Lex.left _ _ (by omega)
    | exact Prod.Lex.right _ (by omega)
    | exact Prod.Lex.right _ (by
        cases f with | mk a b => simp only [Prod.mk.sizeOf_spec]; omega)

end

theorem except_ok_bind {ε α β : Type} {x : α} {f : α → Except ε β} :
    (Except.ok x >>= f : Except ε β) = f x := rfl

theorem except_bind_ok {ε α β : Type} {x : Except ε α} {f : α → Except ε β}
    {b : β} : (x >>= f) = .ok b ↔ ∃ a, x = .ok a ∧ f a = .ok b := by
  cases x <;> simp [Bind.bind, Except.bind]

theorem jsLookup_cons (f : String × Json) (fs : List (String × Json))
    (k : String) :
    jsLookup (f :: fs) k = if f.1 = k then some f.2 else jsLookup fs k := by
  by_cases h : f.1 = k <;> simp [jsLookup, List.findSome?_cons, h]

theorem jsLookup_nil (k : String) : jsLookup [] k = none := rfl

theorem jsLookup_eq_none_of_any_eq_false (fs : List (String × Json))
    (k : String) (h : fs.any (fun f => f.1 = k) = false) :
    jsLookup fs k = none := by
  induction fs with
  | nil => rfl
  | cons f fs ih =>
    simp only [List.any_cons, Bool.or_eq_false_iff, decide_eq_false_iff_not] at h
    simp [jsLookup_cons, h.1, ih h.2]

theorem jsLookup_isSome_of_any_eq_true (fs : List (String × Json))
    (k : String) (h : fs.any (fun f => f.1 = k) = true) :
    (jsLookup fs k).isSome := by
  induction fs with
  | nil => simp at h
  | cons f fs ih =>
    rw [jsLookup_cons]
    by_cases hf : f.1 = k
    · simp [hf]
    · simp only [List.any_cons, Bool.or_eq_true, decide_eq_true_eq] at h
      rcases h with h | h
      · exact absurd h hf
      · simp [hf, ih h]

theorem jsLookup_map_overwrite (fs : List (String × Json)) (k : String)
    (v : Json) :
    jsLookup (fs.map (fun f => if f.1 = k then (f.1, v) else f)) k
      = (jsLookup fs k).map (fun _ => v) := by
  induction fs with
  | nil => rfl
  | cons f fs ih =>
    by_cases hf : f.1 = k
    · simp [jsLookup_cons, hf]
    · simp [jsLookup_cons, hf, ih]

theorem jsLookup_map_overwrite_other (fs : List (String × Json))
    (k k' : String) (v : Json) (h : k' ≠ k) :
    jsLookup (fs.map (fun f => if f.1 = k then (f.1, v) else f)) k'
      = jsLookup fs k' := by
  induction fs with
  | nil => rfl
  | cons f fs ih =>
    by_cases hf : f.1 = k
    · simp [jsLookup_cons, hf, ih, Ne.symm h]
    · by_cases hf' : f.1 = k' <;> simp [jsLookup_cons, hf, hf', ih, h]

theorem jsLookup_append (a b : List (String × Json)) (k : String) :
    jsLookup (a ++ b) k =
      match jsLookup a k with
      | some v => some v
      | none => jsLookup b k := by
  induction a with
  | nil => simp [jsLookup_nil, jsLookup]
  | cons f fs ih =>
    by_cases hf : f.1 = k <;> simp [jsLookup_cons, hf, ih]

theorem jsLookup_set_self (fs : List (String × Json)) (k : String) (v : Json) :
    jsLookup (jsSet fs k v) k = some v := by
  unfold jsSet
  by_cases h : fs.any (fun f => f.1 = k) = true
  · rw [if_pos h, jsLookup_map_overwrite]
    rcases Option.isSome_iff_exists.mp (jsLookup_isSome_of_any_eq_true fs k h)
      with ⟨w, hw⟩
    simp [hw]
  · have hfalse : fs.any (fun f => f.1 = k) = false := by
      revert h; cases fs.any (fun f => f.1 = k) <;> simp
    rw [if_neg h, jsLookup_append, jsLookup_eq_none_of_any_eq_false fs k hfalse]
    simp [jsLookup_cons]

theorem jsLookup_set_other (fs : List (String × Json)) (k k' : String)
    (v : Json) (h : k' ≠ k) :
    jsLookup (jsSet fs k v) k' = jsLookup fs k' := by
  unfold jsSet
  by_cases hany : fs.any (fun f => f.1 = k) = true
  · rw [if_pos hany, jsLookup_map_overwrite_other fs k k' v h]
  · rw [if_neg hany, jsLookup_append]
    cases hl : jsLookup fs k' with
    | some w => simp
    | none => simp [jsLookup_cons, jsLookup_nil, Ne.symm h]

theorem jsMergeFields_nil (a : List (String × Json)) :
    jsMergeFields a [] = a := rfl

theorem jsMergeFields_single (a : List (String × Json)) (f : String × Json) :
    jsMergeFields a [f] = jsSet a f.1 f.2 := rfl

theorem except_error_bind {ε α β : Type} {e : ε} {f : α → Except ε β} :
    (Except.error e >>= f : Except ε β) = .error e := rfl

theorem jsLookup_mem (ps : List (String × Json)) (k : String) (v : Json)
    (h : jsLookup ps k = some v) : (k, v) ∈ ps := by
  induction ps with
  | nil => simp [jsLookup_nil] at h
  | cons f fs ih =>
    rw [jsLookup_cons] at h
    by_cases hf : f.1 = k
    · rw [if_pos hf] at h
      have : f = (k, v) := by
        cases f with | mk a b =>
        simp only at hf
        simp only [Option.some.injEq] at h
        simp [hf, h]
      simp [this]
    · rw [if_neg hf] at h
      simp [ih h]

theorem jsLookup_isSome_of_mem_keys (ps : List (String × Json)) (k : String)
    (h : k ∈ ps.map Prod.fst) : (jsLookup ps k).isSome := by
  induction ps with
  | nil => simp at h
  | cons f fs ih =>
    rw [jsLookup_cons]
    by_cases hf : f.1 = k
    · simp [hf]
    · simp only [List.map_cons, List.mem_cons] at h
      rcases h with h | h
      · exact absurd h.symm hf
      · simp [hf, ih h]

theorem exceptFilter_ok {α : Type} (p : α → Except CompileError Bool)
    (pb : α → Bool) (l : List α) (h : ∀ a ∈ l, p a = .ok (pb a)) :
    exceptFilter p l = .ok (l.filter pb) := by
  induction l with
  | nil => rfl
  | cons a as ih =>
    have hrest := ih (fun b hb => h b (by simp [hb]))
    simp only [exceptFilter, h a (by simp), except_ok_bind, hrest]
    cases hpa : pb a <;> simp [List.filter_cons, hpa, pure, Except.pure]

theorem keptKeys_ok (flag : String) (ps : List (String × Json))
    (h : ∀ f ∈ ps, f.2 ≠ Json.null) :
    keptKeys flag ps = .ok (keptKeysPure flag ps) := by
  unfold keptKeys keptKeysPure
  apply exceptFilter_ok
  intro k hk
  rcases Option.isSome_iff_exists.mp (jsLookup_isSome_of_mem_keys ps k hk)
    with ⟨v, hv⟩
  have hnv : v ≠ Json.null := h (k, v) (jsLookup_mem ps k v hv)
  rw [hv]
  cases v with
  | null => exact absurd rfl hnv
  | obj fs => rfl
  | str s => rfl
  | num n => rfl
  | bool b => rfl
  | arr xs => rfl

/-- C5: `filterReadOnlyProperties` removes the `readOnly: true` properties
and prunes them from a present `required` list (the spec's example), and
returns an empty schema unchanged — but on a schema *without* a `required`
list the unguarded `required.filter` of source line 124 throws a raw
`TypeError` instead of succeeding, contradicting the claim's "(succeeding
also when no required list is present)" (its symmetric twin
`filterWriteOnlyProperties` guards this case, lines 174–176). -/
theorem C5_read_filter_example_and_missing_required_crash :
    filterReadOnlyProperties (some (Json.obj
        [("properties", Json.obj
            [("a", Json.obj [("readOnly", Json.bool true)]),
             ("b", Json.obj [])]),
         ("required", Json.arr [Json.str "a", Json.str "b"])]))
      = .ok (Json.obj
        [("properties", Json.obj [("b", Json.obj [])]),
         ("required", Json.arr [Json.str "b"])])
    ∧ filterReadOnlyProperties (some (Json.obj [])) = .ok (Json.obj [])
    ∧ filterReadOnlyProperties (some (Json.obj
        [("properties", Json.obj
            [("a", Json.obj [("readOnly", Json.bool true)]),
             ("b", Json.obj [])])]))
      = .error CompileError.jsTypeError := by
  refine ⟨?_, ?_, ?_⟩ <;> rfl

/-- C6: on an array-typed schema, `filterWriteOnlyProperties` filters
`items.properties` and prunes `items.required` instead of the top level;
every top-level key other than `items` is left unchanged. -/
theorem C6_write_filter_array_schema
    (fs its ps : List (String × Json)) (req : List Json)
    (h1 : jsLookup fs "type" = some (Json.str "array"))
    (h2 : jsLookup fs "items" = some (Json.obj its))
    (h3 : jsLookup its "properties" = some (Json.obj ps))
    (h4 : jsLookup its "required" = some (Json.arr req))
    (h5 : ∀ f ∈ ps, f.2 ≠ Json.null) :
    filterWriteOnlyProperties (some (.obj fs)) =
      .ok (.obj (jsSet fs "items" (.obj
        (jsSet (jsSet its "properties"
            (.obj (keptProps (keptKeysPure "writeOnly" ps) ps)))
          "required"
          (.arr (req.filter (requiredKeep (keptKeysPure "writeOnly" ps))))))))
    ∧ (∀ k, k ≠ "items" →
        jsLookup (jsSet fs "items" (.obj
          (jsSet (jsSet its "properties"
              (.obj (keptProps (keptKeysPure "writeOnly" ps) ps)))
            "required"
            (.arr (req.filter (requiredKeep (keptKeysPure "writeOnly" ps)))))))
          k = jsLookup fs k) := by
  constructor
  · have hne : fs ≠ [] := by
      intro hh; subst hh; simp [jsLookup_nil] at h1
    have hsrc : filterSource fs = .ok (some (.obj ps), some (.arr req)) := by
      unfold filterSource
      rw [if_pos h1, h2]
      show Except.ok (jsLookup its "properties", jsLookup its "required") = _
      rw [h3, h4]
    simp only [filterWriteOnlyProperties, if_neg hne, hsrc, except_ok_bind,
      schemaPropsFields, keptKeys_ok "writeOnly" ps h5, jsTruthyOpt, jsTruthy,
      filterRebuild]
    rw [if_pos trivial]
    simp only [pure, Except.pure, except_ok_bind]
    rw [if_pos h1, h2]
  · intro k hk
    exact jsLookup_set_other fs "items" k _ hk

/-- C7 (amended): filtering a non-empty, non-array schema that lacks
`properties` does not produce the spec's `MalformedSchemaError` naming the
offender — `schemaProperties` is `undefined`, and
`JSON.parse(JSON.stringify(undefined))` at source line 118 throws a raw
`SyntaxError` carrying no name, which propagates through
`parseRequestBody`. -/
theorem C7_missing_properties_raw_error
    (fs : List (String × Json))
    (h0 : fs ≠ [])
    (h1 : jsLookup fs "properties" = none)
    (h2 : jsLookup fs "type" ≠ some (Json.str "array")) :
    filterReadOnlyProperties (some (.obj fs)) = .error .jsSyntaxError
    ∧ parseRequestBody (some (.obj [("content",
        .obj [("application/json", .obj [("schema", .obj fs)])])]))
      = .error .jsSyntaxError
    ∧ isMalformedSchemaError .jsSyntaxError = false := by
  have hsrc : filterSource fs = .ok (none, jsLookup fs "required") := by
    unfold filterSource
    rw [if_neg h2, h1]
  have hfilter : filterReadOnlyProperties (some (.obj fs))
      = .error .jsSyntaxError := by
    simp only [filterReadOnlyProperties, if_neg h0, hsrc, except_ok_bind,
      schemaPropsFields, except_error_bind]
  refine ⟨hfilter, ?_, rfl⟩
  have hplumb : parseRequestBody (some (.obj [("content",
      .obj [("application/json", .obj [("schema", .obj fs)])])]))
      = (filterReadOnlyProperties (some (.obj fs)) >>= fun filtered =>
          pure [("body", filtered)]) := rfl
  rw [hplumb, hfilter]
  rfl

/-- C7 (counterexample): a JSON request body whose schema is
`{type: 'string'}` makes compilation fail with the anonymous low-level
`jsSyntaxError`, not with `MalformedSchemaError`. -/
theorem C7_counterexample_string_schema :
    parseRequestBody (some (.obj [("content", .obj [("application/json",
        .obj [("schema", .obj [("type", Json.str "string")])])])]))
      = .error .jsSyntaxError
    ∧ isMalformedSchemaError .jsSyntaxError = false :=
  ⟨rfl, rfl⟩

/-- C7 (witness). -/
theorem C7_missing_properties_raw_error_witness :
    filterReadOnlyProperties (some (.obj [("type", Json.str "string")]))
      = .error .jsSyntaxError :=
  (C7_missing_properties_raw_error [("type", Json.str "string")]
    (by decide) (by rfl) (by decide)).1

/-- C9 (amended): when the supplied document already has a truthy
`components` member, `routesFromOpenApiSpecs` returns the caller's document
unchanged — the rest of the pipeline operates on the deep copy made by
`resolveInternalReferences` (source line 21) and never writes to the
input. -/
theorem C9_routes_preserve_doc_with_components
    (fields : List (String × Json)) (handlers : Registry)
    (cs : List (String × Json))
    (h : jsLookup fields "components" = some (.obj cs)) :
    (routesFromOpenApiSpecs (.obj fields) handlers).2 = .obj fields := by
  simp [routesFromOpenApiSpecs, h, jsTruthyOpt, jsTruthy]

/-- C9 (witness). -/
theorem C9_routes_preserve_doc_with_components_witness :
    (routesFromOpenApiSpecs (.obj [("components", Json.obj []),
        ("paths", Json.obj [])]) []).2
      = .obj [("components", Json.obj []), ("paths", Json.obj [])] :=
  C9_routes_preserve_doc_with_components
    [("components", Json.obj []), ("paths", Json.obj [])] [] [] (by rfl)

/-- C9 (counterexample): on a document with no `components` member, source
line 256 (`openAPiRawSpecs.components = openAPiRawSpecs.components || {}`)
adds `components: {}` to the caller's document, so the input is not left
deep-equal to its value before the call. -/
theorem C9_routes_mutate_doc_without_components :
    (routesFromOpenApiSpecs (.obj [("paths", Json.obj [])]) []).2
      = .obj [("paths", Json.obj []), ("components", Json.obj [])]
    ∧ (routesFromOpenApiSpecs (.obj [("paths", Json.obj [])]) []).2
      ≠ .obj [("paths", Json.obj [])] := by
  refine ⟨rfl, ?_⟩
  decide

/-- C6 (witness): the claim's own example. -/
theorem C6_write_filter_array_schema_witness :
    filterWriteOnlyProperties (some (Json.obj [("type", Json.str "array"),
        ("items", Json.obj
          [("properties", Json.obj
              [("secret", Json.obj [("writeOnly", Json.bool true)])]),
           ("required", Json.arr [Json.str "secret"])])]))
      = .ok (Json.obj [("type", Json.str "array"),
          ("items", Json.obj [("properties", Json.obj []),
            ("required", Json.arr [])])]) :=
  (C6_write_filter_array_schema
    [("type", Json.str "array"),
     ("items", Json.obj
       [("properties", Json.obj
           [("secret", Json.obj [("writeOnly", Json.bool true)])]),
        ("required", Json.arr [Json.str "secret"])])]
    [("properties", Json.obj
        [("secret", Json.obj [("writeOnly", Json.bool true)])]),
     ("required", Json.arr [Json.str "secret"])]
    [("secret", Json.obj [("writeOnly", Json.bool true)])]
    [Json.str "secret"]
    (by rfl) (by rfl) (by rfl) (by rfl) (by decide)).1

/-! Characterization of the parameter grouping fold. -/

theorem jsLookup_map_values (fs : List (String × Json)) (g : Json → Json)
    (k : String) :
    jsLookup (fs.map (fun f => (f.1, g f.2))) k = (jsLookup fs k).map g := by
  induction fs with
  | nil => rfl
  | cons f fs ih =>
    by_cases hf : f.1 = k <;> simp [jsLookup_cons, hf, ih]

theorem locMerge_foldl_id (ps : List Json) (l : String)
    (h : ps.any (fun p => paramLocKey p = l) = false) :
    ∀ acc, ps.foldl
      (fun acc p =>
        if paramLocKey p = l then
          jsSet acc (paramName p) (.obj (spreadFields (jsGet p "schema")))
        else acc) acc = acc := by
  induction ps with
  | nil => intro acc; rfl
  | cons p ps ih =>
    intro acc
    simp only [List.any_cons, Bool.or_eq_false_iff,
      decide_eq_false_iff_not] at h
    simp only [List.foldl_cons, if_neg h.1]
    exact ih (by simp [h.2]) acc

theorem locMerge_eq_nil (ps : List Json) (l : String)
    (h : ps.any (fun p => paramLocKey p = l) = false) :
    locMerge ps l = [] :=
  locMerge_foldl_id ps l h []

theorem locMerge_concat (ps : List Json) (p : Json) (l : String) :
    locMerge (ps ++ [p]) l =
      if paramLocKey p = l then
        jsSet (locMerge ps l) (paramName p)
          (.obj (spreadFields (jsGet p "schema")))
      else locMerge ps l := by
  unfold locMerge
  rw [List.foldl_append]
  rfl

theorem paramFold_eq (acc : List (String × Json)) (p : Json) :
    paramFold acc p = jsSet acc (paramLocKey p)
      (.obj (jsMergeFields
        (match jsLookup acc (paramLocKey p) with
         | some (.obj fs) => fs
         | _ => [])
        [(paramName p, .obj (spreadFields (jsGet p "schema")))])) := rfl

theorem rawGroups_lookup (params : List Json) :
    ∀ l, jsLookup (params.foldl paramFold []) l =
      if params.any (fun p => paramLocKey p = l) then
        some (Json.obj (locMerge params l))
      else none := by
  induction params using List.reverseRecOn with
  | nil => intro l; simp [jsLookup_nil, locMerge]
  | append_singleton ps p ih =>
    intro l
    rw [List.foldl_append, List.foldl_cons, List.foldl_nil, paramFold_eq]
    have hprev : (match jsLookup (List.foldl paramFold [] ps) (paramLocKey p) with
        | some (Json.obj fs) => fs
        | _ => []) = locMerge ps (paramLocKey p) := by
      rw [ih (paramLocKey p)]
      by_cases hany : ps.any (fun q => paramLocKey q = paramLocKey p) = true
      · rw [if_pos hany]
      · have hf : ps.any (fun q => paramLocKey q = paramLocKey p) = false := by
          revert hany
          cases ps.any (fun q => paramLocKey q = paramLocKey p) <;> simp
        rw [if_neg (by simp [hf]), locMerge_eq_nil ps _ hf]
    rw [hprev, jsMergeFields_single]
    by_cases hl : paramLocKey p = l
    · rw [← hl, jsLookup_set_self, locMerge_concat, if_pos rfl]
      have hany2 : ((ps ++ [p]).any fun q =>
          paramLocKey q = paramLocKey p) = true := by
        simp [List.any_append]
      rw [if_pos hany2]
    · rw [jsLookup_set_other _ _ _ _ (fun hh => hl hh.symm), ih l,
        locMerge_concat, if_neg hl]
      have hany2 : ((ps ++ [p]).any fun q => paramLocKey q = l)
          = ps.any (fun q => paramLocKey q = l) := by
        simp [List.any_append, hl]
      rw [hany2]

theorem locMerge_lookup_eq (params : List Json) (l nm : String) :
    jsLookup (locMerge params l) nm = lastParamSchema params l nm := by
  induction params using List.reverseRecOn with
  | nil => simp [locMerge, lastParamSchema, jsLookup_nil]
  | append_singleton ps p ih =>
    rw [locMerge_concat]
    unfold lastParamSchema
    by_cases hl : paramLocKey p = l
    · rw [if_pos hl]
      by_cases hn : paramName p = nm
      · rw [hn, jsLookup_set_self]
        have hfil : (ps ++ [p]).filter
            (fun q => paramLocKey q = l && paramName q = nm)
            = ps.filter (fun q => paramLocKey q = l && paramName q = nm)
              ++ [p] := by
          rw [List.filter_append]
          simp [List.filter_cons, hl, hn]
        rw [hfil, List.getLast?_concat]
        rfl
      · rw [jsLookup_set_other _ _ _ _ (fun hh => hn hh.symm)]
        have hfil : (ps ++ [p]).filter
            (fun q => paramLocKey q = l && paramName q = nm)
            = ps.filter (fun q => paramLocKey q = l && paramName q = nm) := by
          rw [List.filter_append]
          simp [List.filter_cons, hn]
        rw [hfil, ih]
        rfl
    · rw [if_neg hl]
      have hfil : (ps ++ [p]).filter
          (fun q => paramLocKey q = l && paramName q = nm)
          = ps.filter (fun q => paramLocKey q = l && paramName q = nm) := by
        rw [List.filter_append]
        simp [List.filter_cons, hl]
      rw [hfil, ih]
      rfl

theorem parseParameters_lookup (params : List Json) (l : String) :
    jsGet (parseParameters params) l =
      if params.any (fun p => paramLocKey p = l) then
        some (Json.obj [("type", Json.str "object"),
          ("properties", Json.obj (locMerge params l))])
      else none := by
  unfold parseParameters
  simp only [jsGet, jsLookup_map_values, rawGroups_lookup]
  by_cases h : params.any (fun p => paramLocKey p = l) = true
  · rw [if_pos h, if_pos h]
    rfl
  · have : params.any (fun p => paramLocKey p = l) = false := by
      revert h; cases params.any (fun p => paramLocKey p = l) <;> simp
    rw [if_neg (by simp [this]), if_neg (by simp [this])]
    rfl

/-- C8: `parseParameters` groups parameters by transport location with the
translation `path → params`, `query → querystring` (header and cookie
unchanged); within one location parameters are folded left-to-right with
last-write-wins (the lookup of each name equals the last parameter of that
location with that name — `lastParamSchema`); and every location's value is
exactly `{type: 'object', properties: <merged>}`, with no `required`
member. -/
theorem C8_parse_parameters_grouping (params : List Json) :
    parseParameterKey "path" = "params"
    ∧ parseParameterKey "query" = "querystring"
    ∧ parseParameterKey "header" = "header"
    ∧ parseParameterKey "cookie" = "cookie"
    ∧ (∀ l, jsGet (parseParameters params) l =
        if params.any (fun p => paramLocKey p = l) then
          some (Json.obj [("type", Json.str "object"),
            ("properties", Json.obj (locMerge params l))])
        else none)
    ∧ (∀ l nm, jsLookup (locMerge params l) nm = lastParamSchema params l nm) :=
  ⟨rfl, rfl, rfl, rfl, parseParameters_lookup params,
   fun l nm => locMerge_lookup_eq params l nm⟩

/-! Handler resolution in `parseMethods`. -/

theorem parseOneMethod_missing (fields : List (String × Json)) (m : String)
    (ofs : List (String × Json)) (oid : String) (handlers : Registry)
    (hop : jsLookup fields m = some (.obj ofs))
    (hoid : jsLookup ofs "operationId" = some (.str oid))
    (hmiss : regFindFn handlers (createCamelCaseFromStr oid) = none) :
    parseOneMethod fields handlers m
      = .error (.missingHandler (createCamelCaseFromStr oid)) := by
  simp only [parseOneMethod, hop, Option.getD_some, jsGet, hoid, hmiss, pure,
    Except.pure, except_ok_bind, except_error_bind]
  rfl

theorem parseOneMethod_ok_shape (fields : List (String × Json)) (m : String)
    (ofs : List (String × Json)) (oid : String) (handlers : Registry)
    (h : RegVal) (r : ProtoRoute)
    (hop : jsLookup fields m = some (.obj ofs))
    (hoid : jsLookup ofs "operationId" = some (.str oid))
    (hfn : regFindFn handlers (createCamelCaseFromStr oid) = some h)
    (hr : parseOneMethod fields handlers m = .ok r) :
    r.method = m.toUpper ∧ r.handler = h := by
  simp only [parseOneMethod, hop, Option.getD_some, jsGet, hoid, hfn, pure,
    Except.pure, except_ok_bind] at hr
  split at hr
  all_goals try split at hr
  all_goals try split at hr
  all_goals
    first
    | (rcases except_bind_ok.mp hr with ⟨b1, hb1, hr⟩
       rcases except_bind_ok.mp hr with ⟨b2, hb2, hr⟩
       simp only [Except.ok.injEq] at hr
       subst hr
       exact ⟨rfl, rfl⟩)
    | (simp only [throw, throwThe, MonadExceptOf.throw, Bind.bind,
        Except.bind] at hr
       exact Except.noConfusion hr)

/-- C4: for a path item whose first recognized verb key is `m` with
operation `ofs`, `parseMethods` derives the handler key as
`createCamelCaseFromStr` of the `operationId`; when the registry holds no
callable under that key the whole compilation of the path item fails with
`missingHandler` naming that key (no partial route list); when a callable
exists, the emitted route's handler is exactly that callable and its method
is the verb upper-cased. -/
theorem C4_missing_handler_fails_and_handler_binds
    (pre post : List (String × Json)) (m : String)
    (ofs : List (String × Json)) (oid : String) (handlers : Registry)
    (hm : m ∈ methodsArray)
    (hpre : ∀ f ∈ pre, f.1 ∉ methodsArray)
    (hoid : jsLookup ofs "operationId" = some (Json.str oid)) :
    (regFindFn handlers (createCamelCaseFromStr oid) = none →
      parseMethods (.obj (pre ++ (m, Json.obj ofs) :: post)) handlers
        = .error (.missingHandler (createCamelCaseFromStr oid)))
    ∧ (∀ h routes,
        regFindFn handlers (createCamelCaseFromStr oid) = some h →
        parseMethods (.obj (pre ++ (m, Json.obj ofs) :: post)) handlers
          = .ok routes →
        ∃ r rest, routes = r :: rest
          ∧ r.method = m.toUpper ∧ r.handler = h) := by
  have hop : jsLookup (pre ++ (m, Json.obj ofs) :: post) m
      = some (.obj ofs) := by
    rw [jsLookup_append]
    have hnone : jsLookup pre m = none := by
      apply jsLookup_eq_none_of_any_eq_false
      rw [List.any_eq_false]
      intro f hf
      simp only [decide_eq_true_eq]
      intro heq
      exact hpre f hf (heq ▸ hm)
    rw [hnone]
    simp [jsLookup_cons]
  have hkeys : ((pre ++ (m, Json.obj ofs) :: post).map Prod.fst).filter
      (fun x => methodsArray.contains x)
      = m :: ((post.map Prod.fst).filter (fun x => methodsArray.contains x)) := by
    rw [List.map_append, List.filter_append, List.map_cons, List.filter_cons]
    have hprefilter : (pre.map Prod.fst).filter
        (fun x => methodsArray.contains x) = [] := by
      rw [List.filter_eq_nil_iff]
      intro a ha
      rcases List.mem_map.mp ha with ⟨f, hf, hfa⟩
      have hna : a ∉ methodsArray := hfa ▸ hpre f hf
      simp [hna]
    rw [hprefilter]
    have hmc : methodsArray.contains m = true := List.elem_eq_true_of_mem hm
    simp [hmc, hm]
  have hpm : parseMethods (.obj (pre ++ (m, Json.obj ofs) :: post)) handlers
      = (parseOneMethod (pre ++ (m, Json.obj ofs) :: post) handlers m) >>=
          (fun r => ((post.map Prod.fst).filter
              (fun x => methodsArray.contains x)).mapM
            (parseOneMethod (pre ++ (m, Json.obj ofs) :: post) handlers) >>=
              fun rs => pure (r :: rs)) := by
    simp only [parseMethods, hkeys, List.mapM_cons]
  constructor
  · intro hmiss
    rw [hpm, parseOneMethod_missing _ _ _ _ _ hop hoid hmiss]
    rfl
  · intro h routes hfn hok
    rw [hpm] at hok
    rcases except_bind_ok.mp hok with ⟨r, hr, hok2⟩
    rcases except_bind_ok.mp hok2 with ⟨rest, hrest, hok3⟩
    simp only [pure, Except.pure, Except.ok.injEq] at hok3
    rcases parseOneMethod_ok_shape _ _ _ _ _ _ _ hop hoid hfn hr with ⟨h1, h2⟩
    exact ⟨r, rest, hok3.symm, h1, h2⟩

/-- C4 (witness): with an empty registry, the path item
`{summary, get: {operationId: 'GetDocument'}}` fails with
`missingHandler "getDocument"`. -/
theorem C4_missing_handler_fails_and_handler_binds_witness :
    parseMethods (.obj [("summary", Json.str "x"),
        ("get", Json.obj [("operationId", Json.str "GetDocument")])]) []
      = .error (.missingHandler "getDocument") :=
  (C4_missing_handler_fails_and_handler_binds
    [("summary", Json.str "x")] [] "get"
    [("operationId", Json.str "GetDocument")] "GetDocument" []
    (by decide) (by decide) (by rfl)).1 (by rfl)

/-- C10: with an operation's own parameters `L` and the path-item-level
(shared) parameters `G`, `parseMethods` compiles the route schema from
`parseParameters (L ++ G)` — the operation's own parameters concatenated
*before* the shared ones — so by the left-to-right last-write-wins merge,
whenever a shared parameter matches a location and name, the shared
(path-item-level) schema is what the compiled location schema exposes. -/
theorem C10_shared_parameter_overwrites_local
    (m oid : String) (G L : List Json) (handlers : Registry) (h : RegVal)
    (hm : m ∈ methodsArray)
    (hfn : regFindFn handlers (createCamelCaseFromStr oid) = some h) :
    ∃ r, parseMethods (.obj [("parameters", Json.arr G),
        (m, Json.obj [("operationId", Json.str oid),
          ("parameters", Json.arr L),
          ("responses", Json.obj [])])]) handlers = .ok [r]
      ∧ r.schema = parseParameters (L ++ G)
      ∧ r.method = m.toUpper ∧ r.handler = h
      ∧ (∀ l nm,
          (G.any fun p => paramLocKey p = l && paramName p = nm) = true →
          jsLookup (locMerge (L ++ G) l) nm = lastParamSchema G l nm) := by
  have hmp : m ≠ "parameters" := by
    intro hh; rw [hh] at hm; exact absurd hm (by decide)
  have hop : jsLookup [("parameters", Json.arr G),
      (m, Json.obj [("operationId", Json.str oid), ("parameters", Json.arr L),
        ("responses", Json.obj [])])] m
      = some (Json.obj [("operationId", Json.str oid),
          ("parameters", Json.arr L), ("responses", Json.obj [])]) := by
    simp [jsLookup_cons, Ne.symm hmp]
  have hone : parseOneMethod [("parameters", Json.arr G),
      (m, Json.obj [("operationId", Json.str oid), ("parameters", Json.arr L),
        ("responses", Json.obj [])])] handlers m
      = .ok (ProtoRoute.mk m.toUpper (parseParameters (L ++ G)) h) := by
    have e1 : jsLookup [("operationId", Json.str oid),
        ("parameters", Json.arr L), ("responses", Json.obj [])] "operationId"
        = some (Json.str oid) := rfl
    have e2 : jsLookup [("operationId", Json.str oid),
        ("parameters", Json.arr L), ("responses", Json.obj [])] "parameters"
        = some (Json.arr L) := rfl
    have e3 : jsLookup [("operationId", Json.str oid),
        ("parameters", Json.arr L), ("responses", Json.obj [])] "responses"
        = some (Json.obj []) := rfl
    have e4 : jsLookup [("operationId", Json.str oid),
        ("parameters", Json.arr L), ("responses", Json.obj [])] "requestBody"
        = none := rfl
    simp only [parseOneMethod, hop, Option.getD_some, jsGet, e1, e2, e3, e4,
      hfn, pure, Except.pure, except_ok_bind, jsTruthy]
    rfl
  have hpc : methodsArray.contains "parameters" = false := by decide
  have hpm2 : "parameters" ∉ methodsArray := by decide
  have hmc : methodsArray.contains m = true := List.elem_eq_true_of_mem hm
  have hkeys : (([("parameters", Json.arr G),
      (m, Json.obj [("operationId", Json.str oid), ("parameters", Json.arr L),
        ("responses", Json.obj [])])].map Prod.fst).filter
      (fun x => methodsArray.contains x)) = [m] := by
    simp [List.filter_cons, hpc, hmc, hm, hpm2]
  have hparse : parseMethods (.obj [("parameters", Json.arr G),
      (m, Json.obj [("operationId", Json.str oid), ("parameters", Json.arr L),
        ("responses", Json.obj [])])]) handlers
      = .ok [ProtoRoute.mk m.toUpper (parseParameters (L ++ G)) h] := by
    simp only [parseMethods, hkeys, List.mapM_cons, List.mapM_nil, hone,
      except_ok_bind, pure, Except.pure]
  refine ⟨ProtoRoute.mk m.toUpper (parseParameters (L ++ G)) h, hparse,
    rfl, rfl, rfl, ?_⟩
  intro l nm hG
  rw [locMerge_lookup_eq]
  unfold lastParamSchema
  rw [List.filter_append]
  have hne : G.filter (fun p => paramLocKey p = l && paramName p = nm)
      ≠ [] := by
    rcases List.any_eq_true.mp hG with ⟨p, hp, hpp⟩
    intro hnil
    have : p ∈ G.filter (fun p => paramLocKey p = l && paramName p = nm) :=
      List.mem_filter.mpr ⟨hp, hpp⟩
    rw [hnil] at this
    exact absurd this (List.not_mem_nil p)
  rw [List.getLast?_append_of_ne_nil _ hne]

/-- C10 (witness): a local query parameter `id: integer` is overwritten by
the shared (path-item-level) `id: string` in the merged location schema. -/
theorem C10_shared_parameter_overwrites_local_witness :
    jsLookup (locMerge
        ([Json.obj [("name", Json.str "id"), ("in", Json.str "query"),
            ("schema", Json.obj [("type", Json.str "integer")])]]
          ++ [Json.obj [("name", Json.str "id"), ("in", Json.str "query"),
            ("schema", Json.obj [("type", Json.str "string")])]])
        "querystring") "id"
      = some (Json.obj [("type", Json.str "string")]) := by
  rcases C10_shared_parameter_overwrites_local "get" "getThing"
      [Json.obj [("name", Json.str "id"), ("in", Json.str "query"),
        ("schema", Json.obj [("type", Json.str "string")])]]
      [Json.obj [("name", Json.str "id"), ("in", Json.str "query"),
        ("schema", Json.obj [("type", Json.str "integer")])]]
      [("getThing", RegVal.fn 0)] (RegVal.fn 0)
      (by decide) (by rfl)
    with ⟨r, h1, h2, h3, h4, h5⟩
  rw [h5 "querystring" "id" (by decide)]
  rfl

/-! Lemmas about the reference scan and the substitution pass. -/

theorem refsInElems_append (a b : List Json) :
    refsInElems (a ++ b) = refsInElems a ++ refsInElems b := by
  induction a with
  | nil => rfl
  | cons x xs ih => simp [refsInElems, ih]

theorem substMembers_eq_map (p : String) (c : List (String × Json))
    (fs : List (String × Json)) (h : ∀ f ∈ fs, f.1 ≠ "$ref") :
    substMembers p c fs = fs.map (fun f => (f.1, substJson p c f.2)) := by
  induction fs with
  | nil => rfl
  | cons f fs ih =>
    rw [substMembers, if_neg (fun hm => h f (by simp) hm.1)]
    simp [ih (fun g hg => h g (by simp [hg]))]

theorem jsLookup_substMembers (p : String) (c : List (String × Json))
    (fs : List (String × Json)) (k : String) (h : ∀ f ∈ fs, f.1 ≠ "$ref") :
    jsLookup (substMembers p c fs) k
      = (jsLookup fs k).map (substJson p c) := by
  rw [substMembers_eq_map p c fs h]
  exact jsLookup_map_values fs (substJson p c) k

